import Mathlib

/-!
Verification of the jira-clone data layer (`src/db.rs`, `src/model.rs`) and
navigation state machine (`src/navigators.rs`).

The Rust program persists a single JSON document through a backend with two
operations (`read_db`, `write_db`).  The in-memory mock backend (and the file
backend, absent I/O failures) is a single mutable `DB` value, so every store
operation is embedded as a state-passing function `DB → Outcome α × DB` whose
second component is the persisted document after the call.  Multi-write
operations (`delete_epic`'s cascade) thread the persisted state through each
inner write exactly as the Rust code does, including the re-read of the
persisted document after the cascade.

`HashMap<u32, T>` is embedded as an association list `List (Nat × T)`;
`lookup` / `removeKey` / `modifyKey` use first-match semantics, which agree
with the Rust map on any list without duplicate keys (a `HashMap` can never
hold duplicate keys; theorems that need this carry a `(keys m).Nodup`
hypothesis).  Hash-iteration order is never observed by the embedded code:
the only iteration is over an epic's `stories` vector, which is an ordered
`Vec` in Rust and a `List` here.

Rust `panic!`/`unwrap` failures are a third result alternative
(`Outcome.panicked`); `anyhow` errors are the structured `JiraError`, which
records exactly the kind and id interpolated into the Rust error strings.
-/

set_option maxHeartbeats 1000000

namespace Jira

/-- `model.rs` `ItemStatus` (variants in source order). -/
inductive ItemStatus where
  | Closed
  | InProgress
  | Open
  | Resolved
deriving DecidableEq

/-- `model.rs` `ItemId(pub u32)`; the tuple field `.0` is named `val`. -/
structure ItemId where
  val : Nat
deriving DecidableEq

/-- `model.rs` `ItemDetail` (fields in source order). -/
structure ItemDetail where
  description : String
  id : ItemId
  name : String
  status : ItemStatus
deriving DecidableEq

/-- `model.rs` `Epic`. -/
structure Epic where
  detail : ItemDetail
  stories : List ItemId
deriving DecidableEq

/-- `model.rs` `Story`. -/
structure Story where
  detail : ItemDetail
deriving DecidableEq

/-- `model.rs` `ItemType` (the `last_item` marker). -/
inductive ItemType where
  | Epic (id : ItemId)
  | Story (id : ItemId)
  | None
deriving DecidableEq

/-- `model.rs` `DB`: the whole persisted document. -/
structure DB where
  last_item : ItemType
  epics : List (Nat × Epic)
  stories : List (Nat × Story)
deriving DecidableEq

/-- `model.rs` `Action` (u32 ids as `Nat`). -/
inductive Action where
  | navigateToEpicDetail (epic_id : Nat)
  | navigateToStoryDetail (epic_id : Nat) (story_id : Nat)
  | navigateToPreviousPage
  | createEpic
  | updateEpicStatus (epic_id : Nat)
  | deleteEpic (epic_id : Nat)
  | createStory (epic_id : Nat)
  | updateStoryStatus (story_id : Nat)
  | deleteStory (epic_id : Nat) (story_id : Nat)
  | exit
deriving DecidableEq

/-- Structured form of the `anyhow!` errors raised in `db.rs`: each error
string interpolates exactly one kind (Epic/Story) and one id. -/
inductive JiraError where
  | epicNotFound (id : ItemId)
  | storyNotFound (id : ItemId)
deriving DecidableEq

/-- Result of a store call: `Ok`, a recoverable `anyhow` error, or a
`panic!`-class abort (`Option::unwrap` on `None`). -/
inductive Outcome (α : Type) where
  | ok (a : α)
  | error (e : JiraError)
  | panicked
deriving DecidableEq

/-! ### Association-list model of `HashMap<u32, T>` -/

/-- The keys of the map. -/
def keys (m : List (Nat × α)) : List Nat := m.map Prod.fst

/-- `HashMap::get` / `contains_key`. -/
def lookup : List (Nat × α) → Nat → Option α
  | [], _ => none
  | (k, v) :: rest, target => if k = target then some v else lookup rest target

/-- `HashMap::remove`: returns the removed value (if any) and the rest of
the map. -/
def removeKey : List (Nat × α) → Nat → Option α × List (Nat × α)
  | [], _ => (none, [])
  | (k, v) :: rest, target =>
      if k = target then (some v, rest)
      else
        let r := removeKey rest target
        (r.1, (k, v) :: r.2)

/-- `HashMap::entry(k).and_modify(f)`: applies `f` to the entry when the key
is present, and leaves the map unchanged otherwise. -/
def modifyKey (f : α → α) : List (Nat × α) → Nat → List (Nat × α)
  | [], _ => []
  | (k, v) :: rest, target =>
      if k = target then (k, f v) :: rest else (k, v) :: modifyKey f rest target

/-- `db.epics.keys().max()` / `db.stories.keys().max()`. -/
def maxKey : List (Nat × α) → Option Nat
  | [] => none
  | (k, _) :: rest =>
      match maxKey rest with
      | none => some k
      | some m => some (max k m)

/-- `Iterator::position(|id| id.0 == story_id.0)` over an epic's `stories`
vector (`db.rs` line 195). -/
def position (story_id : ItemId) : List ItemId → Option Nat
  | [] => none
  | i :: rest =>
      if i.val = story_id.val then some 0
      else (position story_id rest).map (· + 1)

/-! ### The Aggregate Store (`JiraDataBase`, `db.rs`) -/

/-- `db.rs` lines 177–181: `if let ItemType::Story { id: last_item_id } =
db.last_item { if last_item_id.0 == story_id.0 { db.last_item = None } }`. -/
def clearStoryMark (last_item : ItemType) (story_id : ItemId) : ItemType :=
  match last_item with
  | ItemType.Story last_item_id =>
      if last_item_id.val = story_id.val then ItemType.None
      else ItemType.Story last_item_id
  | other => other

/-- `db.rs` lines 154–158: the analogous `if let` block of `delete_epic`. -/
def clearEpicMark (last_item : ItemType) (id : ItemId) : ItemType :=
  match last_item with
  | ItemType.Epic last_item_id =>
      if last_item_id.val = id.val then ItemType.None
      else ItemType.Epic last_item_id
  | other => other

/-- `JiraDataBase::create_epic` (`db.rs` lines 82–105).  The state argument
is the persisted document; the returned document is the persisted result. -/
def create_epic (st : DB) (name description : String) : Outcome ItemId × DB :=
  let db := st
  let epic_id : ItemId :=
    match maxKey db.epics with
    | none => ⟨0⟩
    | some last_id => ⟨last_id + 1⟩
  let epic : Epic := ⟨⟨description, epic_id, name, ItemStatus.Open⟩, []⟩
  -- `db.epics.entry(epic.detail.id.0).or_insert(epic).detail.id`
  let inserted : List (Nat × Epic) × ItemId :=
    match lookup db.epics epic.detail.id.val with
    | some existing => (db.epics, existing.detail.id)
    | none => (db.epics ++ [(epic.detail.id.val, epic)], epic.detail.id)
  let db := { db with epics := inserted.1, last_item := ItemType.Epic inserted.2 }
  (Outcome.ok inserted.2, db)

/-- `JiraDataBase::create_story` (`db.rs` lines 107–149). -/
def create_story (st : DB) (name description : String) (epic_id : Option ItemId) :
    Outcome ItemId × DB :=
  let db := st
  let story_id : ItemId :=
    match maxKey db.stories with
    | none => ⟨0⟩
    | some last_id => ⟨last_id + 1⟩
  let story : Story := ⟨⟨description, story_id, name, ItemStatus.Open⟩⟩
  -- `db.stories.entry(story.detail.id.0).or_insert(story).detail.id`
  let inserted : List (Nat × Story) × ItemId :=
    match lookup db.stories story.detail.id.val with
    | some existing => (db.stories, existing.detail.id)
    | none => (db.stories ++ [(story.detail.id.val, story)], story.detail.id)
  let db := { db with stories := inserted.1, last_item := ItemType.Story inserted.2 }
  match epic_id with
  | some id =>
      match lookup db.epics id.val with
      | none => (Outcome.error (JiraError.epicNotFound id), st)
      | some _ =>
          let db :=
            { db with
              epics := modifyKey
                (fun epic => { epic with stories := epic.stories ++ [inserted.2] })
                db.epics id.val }
          (Outcome.ok inserted.2, db)
  | none => (Outcome.ok inserted.2, db)

/-- `JiraDataBase::delete_story` (`db.rs` lines 174–205).  The
`position(..).unwrap()` inside `and_modify` aborts (`Outcome.panicked`) when
the story id is absent from the epic's `stories` vector. -/
def delete_story (st : DB) (story_id : ItemId) (epic_id : Option ItemId) :
    Outcome Unit × DB :=
  let db := { st with last_item := clearStoryMark st.last_item story_id }
  match epic_id with
  | some id =>
      match lookup db.epics id.val with
      | none => (Outcome.error (JiraError.epicNotFound id), st)
      | some epic =>
          match position story_id epic.stories with
          | none => (Outcome.panicked, st)
          | some idx =>
              let db :=
                { db with
                  epics := modifyKey
                    (fun epic => { epic with stories := epic.stories.eraseIdx idx })
                    db.epics id.val }
              let r := removeKey db.stories story_id.val
              match r.1 with
              | some _ => (Outcome.ok (), { db with stories := r.2 })
              | none => (Outcome.error (JiraError.storyNotFound story_id), st)
  | none =>
      let r := removeKey db.stories story_id.val
      match r.1 with
      | some _ => (Outcome.ok (), { db with stories := r.2 })
      | none => (Outcome.error (JiraError.storyNotFound story_id), st)

/-- The `for story_id in &epic.stories { self.delete_story(*story_id, None)?; }`
loop of `delete_epic` (`db.rs` lines 161–163).  Each inner call reads and
writes the persisted document; `?` propagates the first failure, leaving the
writes already performed in place. -/
def cascade : DB → List ItemId → Outcome Unit × DB
  | st, [] => (Outcome.ok (), st)
  | st, story_id :: rest =>
      match delete_story st story_id none with
      | (Outcome.ok _, st') => cascade st' rest
      | r => r

/-- `JiraDataBase::delete_epic` (`db.rs` lines 151–172).  Note the
`db = self.database.read_db()?` re-read after the cascade: it discards the
`last_item` clearing performed on the first local copy. -/
def delete_epic (st : DB) (id : ItemId) : Outcome Unit × DB :=
  let db := { st with last_item := clearEpicMark st.last_item id }
  match lookup db.epics id.val with
  | some epic =>
      match cascade st epic.stories with
      | (Outcome.ok _, st1) =>
          -- `db = self.database.read_db()?`
          let db := st1
          let r := removeKey db.epics id.val
          match r.1 with
          | some _ => (Outcome.ok (), { db with epics := r.2 })
          | none => (Outcome.error (JiraError.epicNotFound id), st1)
      | r => r
  | none =>
      let r := removeKey db.epics id.val
      match r.1 with
      | some _ => (Outcome.ok (), { db with epics := r.2 })
      | none => (Outcome.error (JiraError.epicNotFound id), st)

/-- `JiraDataBase::update_epic_status` (`db.rs` lines 207–220). -/
def update_epic_status (st : DB) (epic_id : ItemId) (status : ItemStatus) :
    Outcome Unit × DB :=
  let db := st
  match lookup db.epics epic_id.val with
  | some _ =>
      let db :=
        { db with
          epics := modifyKey
            (fun epic => { epic with detail := { epic.detail with status := status } })
            db.epics epic_id.val }
      (Outcome.ok (), db)
  | none => (Outcome.error (JiraError.epicNotFound epic_id), st)

/-- `JiraDataBase::update_story_status` (`db.rs` lines 222–235). -/
def update_story_status (st : DB) (story_id : ItemId) (status : ItemStatus) :
    Outcome Unit × DB :=
  let db := st
  match lookup db.stories story_id.val with
  | some _ =>
      let db :=
        { db with
          stories := modifyKey
            (fun story => { story with detail := { story.detail with status := status } })
            db.stories story_id.val }
      (Outcome.ok (), db)
  | none => (Outcome.error (JiraError.storyNotFound story_id), st)

/-! ### Navigator (`navigators.rs`) -/

/-- The closed set of screens (`ui`: `HomePage`, `EpicDetail`, `StoryDetail`).
Their `db` handles carry no state of their own and are dropped. -/
inductive Page where
  | home
  | epicDetail (epic_id : Nat)
  | storyDetail (epic_id : Nat) (story_id : Nat)
deriving DecidableEq

/-- The values returned by the injected prompt closures of `Prompts`
(`ui/prompts.rs`): `handle_action` consumes at most one of them per call. -/
structure Prompts where
  create_epic : Epic
  create_story : Story
  delete_epic : Bool
  delete_story : Bool
  update_status : Option ItemStatus

/-- `Navigator`: the page stack plus the shared database handle (modelled by
its persisted document).  The stack top is the list head (`Vec::push`/`pop`
act on the Rust vector's tail; orientation is reversed consistently). -/
structure Navigator where
  pages : List Page
  db : DB

/-- `Navigator::new` (`navigators.rs` lines 15–23). -/
def Navigator.new (db : DB) : Navigator := ⟨[Page.home], db⟩

/-- `if !self.pages.is_empty() { self.pages.pop(); }`. -/
def popPages (pages : List Page) : List Page :=
  if pages.isEmpty then pages else pages.tail

/-- `Navigator::handle_action` (`navigators.rs` lines 29–103).  Store-call
failures propagate through `?` immediately: in the Delete arms this happens
*before* the pop block, so an erroring delete leaves the stack untouched. -/
def handle_action (nav : Navigator) (prompts : Prompts) (action : Action) :
    Outcome Unit × Navigator :=
  match action with
  | Action.createEpic =>
      let epic := prompts.create_epic
      match create_epic nav.db epic.detail.name epic.detail.description with
      | (Outcome.ok _, st') => (Outcome.ok (), { nav with db := st' })
      | (Outcome.error e, st') => (Outcome.error e, { nav with db := st' })
      | (Outcome.panicked, st') => (Outcome.panicked, { nav with db := st' })
  | Action.deleteEpic epic_id =>
      if prompts.delete_epic then
        match delete_epic nav.db ⟨epic_id⟩ with
        | (Outcome.ok _, st') =>
            (Outcome.ok (), { nav with db := st', pages := popPages nav.pages })
        | (Outcome.error e, st') => (Outcome.error e, { nav with db := st' })
        | (Outcome.panicked, st') => (Outcome.panicked, { nav with db := st' })
      else
        (Outcome.ok (), { nav with pages := popPages nav.pages })
  | Action.exit => (Outcome.ok (), { nav with pages := [] })
  | Action.createStory epic_id =>
      let story := prompts.create_story
      match create_story nav.db story.detail.name story.detail.description
          (some ⟨epic_id⟩) with
      | (Outcome.ok _, st') => (Outcome.ok (), { nav with db := st' })
      | (Outcome.error e, st') => (Outcome.error e, { nav with db := st' })
      | (Outcome.panicked, st') => (Outcome.panicked, { nav with db := st' })
  | Action.deleteStory epic_id story_id =>
      if prompts.delete_story then
        match delete_story nav.db ⟨story_id⟩ (some ⟨epic_id⟩) with
        | (Outcome.ok _, st') =>
            (Outcome.ok (), { nav with db := st', pages := popPages nav.pages })
        | (Outcome.error e, st') => (Outcome.error e, { nav with db := st' })
        | (Outcome.panicked, st') => (Outcome.panicked, { nav with db := st' })
      else
        (Outcome.ok (), { nav with pages := popPages nav.pages })
  | Action.navigateToEpicDetail epic_id =>
      (Outcome.ok (), { nav with pages := Page.epicDetail epic_id :: nav.pages })
  | Action.navigateToPreviousPage =>
      (Outcome.ok (), { nav with pages := popPages nav.pages })
  | Action.navigateToStoryDetail epic_id story_id =>
      (Outcome.ok (),
        { nav with pages := Page.storyDetail epic_id story_id :: nav.pages })
  | Action.updateEpicStatus epic_id =>
      match prompts.update_status with
      | some status =>
          match update_epic_status nav.db ⟨epic_id⟩ status with
          | (Outcome.ok _, st') => (Outcome.ok (), { nav with db := st' })
          | (Outcome.error e, st') => (Outcome.error e, { nav with db := st' })
          | (Outcome.panicked, st') => (Outcome.panicked, { nav with db := st' })
      | none => (Outcome.ok (), nav)
  | Action.updateStoryStatus story_id =>
      match prompts.update_status with
      | some status =>
          match update_story_status nav.db ⟨story_id⟩ status with
          | (Outcome.ok _, st') => (Outcome.ok (), { nav with db := st' })
          | (Outcome.error e, st') => (Outcome.error e, { nav with db := st' })
          | (Outcome.panicked, st') => (Outcome.panicked, { nav with db := st' })
      | none => (Outcome.ok (), nav)

/-! ### Invariants and the top-level call alphabet -/

/-- Invariant I1: every id in any epic's `stories` sequence is a key of the
global `stories` collection. -/
def refIntact (st : DB) : Prop :=
  ∀ p ∈ st.epics, ∀ i ∈ (Prod.snd p).stories, i.val ∈ keys st.stories

instance (st : DB) : Decidable (refIntact st) := by
  unfold refIntact
  infer_instance

/-- The concatenation of all epics' story-reference lists. -/
def allRefs : List (Nat × Epic) → List Nat
  | [] => []
  | p :: rest => (Prod.snd p).stories.map ItemId.val ++ allRefs rest

/-- Well-formedness of a document: unique map keys (a `HashMap` invariant),
I1, and no story id listed twice across epic story-sequences (each story has
at most one owner and no list repeats an id). -/
def WF (st : DB) : Prop :=
  (keys st.epics).Nodup ∧ (keys st.stories).Nodup ∧ refIntact st ∧
    (allRefs st.epics).Nodup

instance (st : DB) : Decidable (WF st) := by
  unfold WF
  infer_instance

/-- One top-level Aggregate Store call with its arguments. -/
inductive StoreCall where
  | createEpicCall (name description : String)
  | createStoryCall (name description : String) (epic_id : Option ItemId)
  | deleteEpicCall (id : ItemId)
  | deleteStoryCall (story_id : ItemId) (epic_id : Option ItemId)
  | updateEpicStatusCall (epic_id : ItemId) (status : ItemStatus)
  | updateStoryStatusCall (story_id : ItemId) (status : ItemStatus)

/-- The persisted document after dispatching one store call. -/
def runCall (st : DB) : StoreCall → DB
  | StoreCall.createEpicCall n d => (create_epic st n d).2
  | StoreCall.createStoryCall n d e => (create_story st n d e).2
  | StoreCall.deleteEpicCall i => (delete_epic st i).2
  | StoreCall.deleteStoryCall s e => (delete_story st s e).2
  | StoreCall.updateEpicStatusCall e s => (update_epic_status st e s).2
  | StoreCall.updateStoryStatusCall s stat => (update_story_status st s stat).2

/-- Side condition under which a call preserves well-formedness: deleting a
story without naming its owning epic is only safe when no epic lists it. -/
def sideCond (st : DB) : StoreCall → Prop
  | StoreCall.deleteStoryCall s none => s.val ∉ allRefs st.epics
  | _ => True

instance (st : DB) (c : StoreCall) : Decidable (sideCond st c) := by
  unfold sideCond
  cases c with
  | deleteStoryCall s e => cases e <;> infer_instance
  | createEpicCall n d => infer_instance
  | createStoryCall n d e => infer_instance
  | deleteEpicCall i => infer_instance
  | updateEpicStatusCall e s => infer_instance
  | updateStoryStatusCall s stat => infer_instance

/-! ### Lemmas about the association-list map operations -/

theorem keys_append (a b : List (Nat × α)) : keys (a ++ b) = keys a ++ keys b :=
  List.map_append _ a b

theorem lookup_eq_none_iff (m : List (Nat × α)) (k : Nat) :
    lookup m k = none ↔ k ∉ keys m := by
  induction m with
  | nil => simp [lookup, keys]
  | cons p rest ih =>
      obtain ⟨k', v⟩ := p
      by_cases h : k' = k
      · subst h
        simp [lookup, keys]
      · simp only [lookup, keys, List.map_cons, List.mem_cons, if_neg h]
        rw [ih]
        constructor
        · rintro hk (rfl | hmem)
          · exact h rfl
          · exact hk hmem
        · intro hk hmem
          exact hk (Or.inr hmem)

theorem lookup_eq_none (m : List (Nat × α)) (k : Nat) (h : k ∉ keys m) :
    lookup m k = none :=
  (lookup_eq_none_iff m k).2 h

theorem exists_lookup_of_mem_keys (m : List (Nat × α)) (k : Nat)
    (h : k ∈ keys m) : ∃ v, lookup m k = some v := by
  cases hl : lookup m k with
  | none => exact absurd ((lookup_eq_none_iff m k).1 hl) (by simp [h])
  | some v => exact ⟨v, rfl⟩

theorem lookup_some_decomp (m : List (Nat × α)) (k : Nat) (v : α)
    (h : lookup m k = some v) :
    ∃ l₁ l₂, m = l₁ ++ (k, v) :: l₂ ∧ k ∉ keys l₁ := by
  induction m with
  | nil => simp [lookup] at h
  | cons p rest ih =>
      obtain ⟨k', v'⟩ := p
      by_cases hk : k' = k
      · subst hk
        simp [lookup] at h
        subst h
        exact ⟨[], rest, rfl, by simp [keys]⟩
      · simp only [lookup, if_neg hk] at h
        obtain ⟨l₁, l₂, rfl, hnot⟩ := ih h
        refine ⟨(k', v') :: l₁, l₂, rfl, ?_⟩
        simp only [keys, List.map_cons, List.mem_cons]
        rintro (rfl | hmem)
        · exact hk rfl
        · exact hnot hmem

theorem removeKey_fst (m : List (Nat × α)) (k : Nat) :
    (removeKey m k).1 = lookup m k := by
  induction m with
  | nil => simp [removeKey, lookup]
  | cons p rest ih =>
      obtain ⟨k', v⟩ := p
      by_cases h : k' = k
      · simp [removeKey, lookup, h]
      · simp [removeKey, lookup, h, ih]

theorem removeKey_decomp (l₁ l₂ : List (Nat × α)) (k : Nat) (v : α)
    (h : k ∉ keys l₁) :
    removeKey (l₁ ++ (k, v) :: l₂) k = (some v, l₁ ++ l₂) := by
  induction l₁ with
  | nil => simp [removeKey]
  | cons p rest ih =>
      obtain ⟨k', v'⟩ := p
      simp only [keys, List.map_cons, List.mem_cons] at h
      push_neg at h
      obtain ⟨hne, hmem⟩ := h
      simp only [List.cons_append, removeKey, if_neg (Ne.symm hne), List.append_eq]
      rw [ih (by simpa [keys] using hmem)]

theorem modifyKey_decomp (f : α → α) (l₁ l₂ : List (Nat × α)) (k : Nat) (v : α)
    (h : k ∉ keys l₁) :
    modifyKey f (l₁ ++ (k, v) :: l₂) k = l₁ ++ (k, f v) :: l₂ := by
  induction l₁ with
  | nil => simp [modifyKey]
  | cons p rest ih =>
      obtain ⟨k', v'⟩ := p
      simp only [keys, List.map_cons, List.mem_cons] at h
      push_neg at h
      obtain ⟨hne, hmem⟩ := h
      simp only [List.cons_append, modifyKey, if_neg (Ne.symm hne), List.append_eq]
      rw [ih (by simpa [keys] using hmem)]

theorem keys_modifyKey (f : α → α) (m : List (Nat × α)) (k : Nat) :
    keys (modifyKey f m k) = keys m := by
  induction m with
  | nil => rfl
  | cons p rest ih =>
      obtain ⟨k', v⟩ := p
      by_cases h : k' = k
      · simp [modifyKey, keys, h]
      · simp only [modifyKey, if_neg h, keys, List.map_cons, List.cons.injEq]
        exact ⟨trivial, ih⟩

theorem lookup_append_right (a b : List (Nat × α)) (k : Nat)
    (h : k ∉ keys a) : lookup (a ++ b) k = lookup b k := by
  induction a with
  | nil => rfl
  | cons p rest ih =>
      obtain ⟨k', v⟩ := p
      simp only [keys, List.map_cons, List.mem_cons] at h
      push_neg at h
      obtain ⟨hne, hmem⟩ := h
      simp only [List.cons_append, lookup, if_neg (Ne.symm hne)]
      exact ih (by simp [keys, hmem])

theorem keys_removeKey_sublist (m : List (Nat × α)) (k : Nat) :
    (keys (removeKey m k).2).Sublist (keys m) := by
  induction m with
  | nil => simp [removeKey, keys]
  | cons p rest ih =>
      obtain ⟨k', v⟩ := p
      by_cases h : k' = k
      · simp only [removeKey, if_pos h, keys, List.map_cons]
        exact (List.sublist_cons_self _ _)
      · simp only [removeKey, if_neg h, keys, List.map_cons]
        exact List.Sublist.cons₂ _ ih

theorem mem_keys_removeKey_of_ne (m : List (Nat × α)) (k k' : Nat)
    (h : k' ∈ keys m) (hne : k' ≠ k) : k' ∈ keys (removeKey m k).2 := by
  induction m with
  | nil => simp [keys] at h
  | cons p rest ih =>
      obtain ⟨k'', v⟩ := p
      simp only [keys, List.map_cons, List.mem_cons] at h
      by_cases hk : k'' = k
      · simp only [removeKey, if_pos hk]
        rcases h with rfl | h
        · exact absurd hk hne
        · exact h
      · simp only [removeKey, if_neg hk, keys, List.map_cons, List.mem_cons]
        rcases h with rfl | h
        · exact Or.inl rfl
        · exact Or.inr (ih h)

theorem not_mem_keys_removeKey (m : List (Nat × α)) (k : Nat)
    (hnd : (keys m).Nodup) : k ∉ keys (removeKey m k).2 := by
  induction m with
  | nil => simp [removeKey, keys]
  | cons p rest ih =>
      obtain ⟨k', v⟩ := p
      simp only [keys, List.map_cons, List.nodup_cons] at hnd
      obtain ⟨hk', hrest⟩ := hnd
      by_cases h : k' = k
      · subst h
        simp only [removeKey, if_pos rfl]
        exact hk'
      · simp only [removeKey, if_neg h, keys, List.map_cons, List.mem_cons]
        rintro (rfl | hmem)
        · exact h rfl
        · exact ih hrest hmem

theorem mem_keys_removeKey_iff (m : List (Nat × α)) (k k' : Nat)
    (hnd : (keys m).Nodup) :
    k' ∈ keys (removeKey m k).2 ↔ k' ∈ keys m ∧ k' ≠ k := by
  constructor
  · intro h
    refine ⟨(keys_removeKey_sublist m k).mem h, ?_⟩
    rintro rfl
    exact not_mem_keys_removeKey m k' hnd h
  · rintro ⟨hmem, hne⟩
    exact mem_keys_removeKey_of_ne m k k' hmem hne

/-! ### Lemmas about `maxKey` and fresh-id computation -/

theorem maxKey_eq_none_iff (m : List (Nat × α)) : maxKey m = none ↔ m = [] := by
  cases m with
  | nil => simp [maxKey]
  | cons p rest =>
      obtain ⟨k, v⟩ := p
      simp only [maxKey]
      cases maxKey rest <;> simp

theorem le_maxKey_of_mem (m : List (Nat × α)) (mk k : Nat)
    (h : maxKey m = some mk) (hk : k ∈ keys m) : k ≤ mk := by
  induction m generalizing mk with
  | nil => simp [keys] at hk
  | cons p rest ih =>
      obtain ⟨k', v⟩ := p
      simp only [keys, List.map_cons, List.mem_cons] at hk
      simp only [maxKey] at h
      cases hmr : maxKey rest with
      | none =>
          rw [hmr] at h
          simp only [Option.some.injEq] at h
          subst h
          rcases hk with rfl | hmem
          · exact le_refl _
          · rw [maxKey_eq_none_iff] at hmr
            subst hmr
            simp [keys] at hmem
      | some mr =>
          rw [hmr] at h
          simp only [Option.some.injEq] at h
          subst h
          rcases hk with rfl | hmem
          · exact le_max_left _ _
          · exact le_trans (ih mr hmr hmem) (le_max_right _ _)

theorem maxKey_succ_not_mem (m : List (Nat × α)) (mk : Nat)
    (h : maxKey m = some mk) : mk + 1 ∉ keys m := by
  intro hmem
  have := le_maxKey_of_mem m mk (mk + 1) h hmem
  omega

/-! ### Lemmas about `position` and `eraseIdx` -/

theorem position_eq_none_iff (s : ItemId) (l : List ItemId) :
    position s l = none ↔ s.val ∉ l.map ItemId.val := by
  induction l with
  | nil => simp [position]
  | cons i rest ih =>
      by_cases h : i.val = s.val
      · simp [position, h]
      · simp only [position, if_neg h, List.map_cons, List.mem_cons]
        rw [Option.map_eq_none', ih]
        constructor
        · rintro hk (heq | hmem)
          · exact h heq.symm
          · exact hk hmem
        · intro hk hmem
          exact hk (Or.inr hmem)

theorem position_some_decomp (s : ItemId) (l : List ItemId) (idx : Nat)
    (h : position s l = some idx) :
    ∃ l₁ t l₂, l = l₁ ++ t :: l₂ ∧ t.val = s.val ∧ l.eraseIdx idx = l₁ ++ l₂ := by
  induction l generalizing idx with
  | nil => simp [position] at h
  | cons i rest ih =>
      by_cases hi : i.val = s.val
      · simp only [position, if_pos hi, Option.some.injEq] at h
        subst h
        exact ⟨[], i, rest, rfl, hi, rfl⟩
      · simp only [position, if_neg hi, Option.map_eq_some'] at h
        obtain ⟨j, hj, rfl⟩ := h
        obtain ⟨l₁, t, l₂, rfl, ht, herase⟩ := ih j hj
        exact ⟨i :: l₁, t, l₂, rfl, ht, by simp [List.eraseIdx, herase]⟩

/-! ### Lemmas about `allRefs` and `refIntact` -/

theorem allRefs_append (a b : List (Nat × Epic)) :
    allRefs (a ++ b) = allRefs a ++ allRefs b := by
  induction a with
  | nil => rfl
  | cons p rest ih => simp [allRefs, ih]

theorem mem_allRefs (x : Nat) (E : List (Nat × Epic)) :
    x ∈ allRefs E ↔ ∃ p ∈ E, x ∈ (Prod.snd p).stories.map ItemId.val := by
  induction E with
  | nil => simp [allRefs]
  | cons p rest ih =>
      simp only [allRefs, List.mem_append, List.mem_cons, ih]
      constructor
      · rintro (h | ⟨q, hq, hx⟩)
        · exact ⟨p, Or.inl rfl, h⟩
        · exact ⟨q, Or.inr hq, hx⟩
      · rintro ⟨q, rfl | hq, hx⟩
        · exact Or.inl hx
        · exact Or.inr ⟨q, hq, hx⟩

theorem refIntact_iff (st : DB) :
    refIntact st ↔ ∀ x ∈ allRefs st.epics, x ∈ keys st.stories := by
  constructor
  · intro h x hx
    rw [mem_allRefs] at hx
    obtain ⟨p, hp, hxp⟩ := hx
    simp only [List.mem_map] at hxp
    obtain ⟨i, hi, rfl⟩ := hxp
    exact h p hp i hi
  · intro h p hp i hi
    exact h i.val ((mem_allRefs _ _).2 ⟨p, hp, List.mem_map_of_mem _ hi⟩)

/-! ### Path lemmas for the store operations -/

theorem delete_story_none_eq (st : DB) (i : ItemId)
    (h : i.val ∈ keys st.stories) :
    delete_story st i none =
      (Outcome.ok (),
        ⟨clearStoryMark st.last_item i, st.epics, (removeKey st.stories i.val).2⟩) := by
  obtain ⟨v, hv⟩ := exists_lookup_of_mem_keys st.stories i.val h
  simp [delete_story, removeKey_fst, hv]

theorem delete_story_none_err (st : DB) (s : ItemId)
    (h : lookup st.stories s.val = none) :
    delete_story st s none = (Outcome.error (JiraError.storyNotFound s), st) := by
  simp [delete_story, removeKey_fst, h]

theorem delete_story_epic_missing (st : DB) (s e : ItemId)
    (h : lookup st.epics e.val = none) :
    delete_story st s (some e) = (Outcome.error (JiraError.epicNotFound e), st) := by
  simp [delete_story, h]

theorem delete_story_panic (st : DB) (s e : ItemId) (ep : Epic)
    (he : lookup st.epics e.val = some ep)
    (hp : position s ep.stories = none) :
    delete_story st s (some e) = (Outcome.panicked, st) := by
  simp [delete_story, he, hp]

theorem delete_story_some_eq (st : DB) (s e : ItemId) (ep : Epic) (idx : Nat)
    (v : Story)
    (he : lookup st.epics e.val = some ep)
    (hp : position s ep.stories = some idx)
    (hs : lookup st.stories s.val = some v) :
    delete_story st s (some e) =
      (Outcome.ok (),
        ⟨clearStoryMark st.last_item s,
         modifyKey (fun epic => { epic with stories := epic.stories.eraseIdx idx })
           st.epics e.val,
         (removeKey st.stories s.val).2⟩) := by
  simp [delete_story, removeKey_fst, he, hp, hs]

theorem delete_story_some_story_missing (st : DB) (s e : ItemId) (ep : Epic)
    (idx : Nat)
    (he : lookup st.epics e.val = some ep)
    (hp : position s ep.stories = some idx)
    (hs : lookup st.stories s.val = none) :
    delete_story st s (some e) = (Outcome.error (JiraError.storyNotFound s), st) := by
  simp [delete_story, removeKey_fst, he, hp, hs]

theorem delete_epic_missing (st : DB) (e : ItemId)
    (h : lookup st.epics e.val = none) :
    delete_epic st e = (Outcome.error (JiraError.epicNotFound e), st) := by
  simp [delete_epic, removeKey_fst, h]

theorem update_epic_status_missing (st : DB) (e : ItemId) (s : ItemStatus)
    (h : lookup st.epics e.val = none) :
    update_epic_status st e s = (Outcome.error (JiraError.epicNotFound e), st) := by
  simp [update_epic_status, h]

theorem update_epic_status_eq (st : DB) (e : ItemId) (s : ItemStatus) (ep : Epic)
    (h : lookup st.epics e.val = some ep) :
    update_epic_status st e s =
      (Outcome.ok (),
        { st with
          epics := modifyKey
            (fun epic => { epic with detail := { epic.detail with status := s } })
            st.epics e.val }) := by
  simp [update_epic_status, h]

theorem update_story_status_missing (st : DB) (s : ItemId) (stat : ItemStatus)
    (h : lookup st.stories s.val = none) :
    update_story_status st s stat =
      (Outcome.error (JiraError.storyNotFound s), st) := by
  simp [update_story_status, h]

theorem update_story_status_eq (st : DB) (s : ItemId) (stat : ItemStatus)
    (v : Story) (h : lookup st.stories s.val = some v) :
    update_story_status st s stat =
      (Outcome.ok (),
        { st with
          stories := modifyKey
            (fun story => { story with detail := { story.detail with status := stat } })
            st.stories s.val }) := by
  simp [update_story_status, h]

/-- Full characterisation of `create_epic`: the id is fresh (0 on an empty
collection, max + 1 otherwise) and the epic is inserted with empty `stories`,
`last_item` set to it, stories untouched. -/
theorem create_epic_eq (st : DB) (n d : String) :
    ∃ fid : Nat,
      (st.epics = [] → fid = 0) ∧
      (∀ mk, maxKey st.epics = some mk → fid = mk + 1) ∧
      fid ∉ keys st.epics ∧
      create_epic st n d =
        (Outcome.ok ⟨fid⟩,
         ⟨ItemType.Epic ⟨fid⟩,
          st.epics ++ [(fid, ⟨⟨d, ⟨fid⟩, n, ItemStatus.Open⟩, []⟩)],
          st.stories⟩) := by
  cases hm : maxKey st.epics with
  | none =>
      have hnil : st.epics = [] := (maxKey_eq_none_iff st.epics).1 hm
      refine ⟨0, fun _ => rfl, ?_, ?_, ?_⟩
      · exact fun mk hmk => Option.noConfusion hmk
      · simp [hnil, keys]
      · simp [create_epic, maxKey, hm, hnil, lookup]
  | some mk =>
      have hfresh : mk + 1 ∉ keys st.epics := maxKey_succ_not_mem st.epics mk hm
      refine ⟨mk + 1, ?_, ?_, hfresh, ?_⟩
      · intro hnil
        rw [hnil] at hm
        simp [maxKey] at hm
      · intro mk' hmk'
        injection hmk' with h
        omega
      · simp [create_epic, hm, lookup_eq_none _ _ hfresh]

/-- Full characterisation of `create_story` on all three paths (no epic,
unknown epic, known epic). -/
theorem create_story_eq (st : DB) (n d : String) :
    ∃ fid : Nat,
      (st.stories = [] → fid = 0) ∧
      (∀ mk, maxKey st.stories = some mk → fid = mk + 1) ∧
      fid ∉ keys st.stories ∧
      create_story st n d none =
        (Outcome.ok ⟨fid⟩,
         ⟨ItemType.Story ⟨fid⟩, st.epics,
          st.stories ++ [(fid, ⟨⟨d, ⟨fid⟩, n, ItemStatus.Open⟩⟩)]⟩) ∧
      (∀ e, lookup st.epics e.val = none →
        create_story st n d (some e) =
          (Outcome.error (JiraError.epicNotFound e), st)) ∧
      (∀ e ep, lookup st.epics e.val = some ep →
        create_story st n d (some e) =
          (Outcome.ok ⟨fid⟩,
           ⟨ItemType.Story ⟨fid⟩,
            modifyKey (fun epic => { epic with stories := epic.stories ++ [⟨fid⟩] })
              st.epics e.val,
            st.stories ++ [(fid, ⟨⟨d, ⟨fid⟩, n, ItemStatus.Open⟩⟩)]⟩)) := by
  cases hm : maxKey st.stories with
  | none =>
      have hnil : st.stories = [] := (maxKey_eq_none_iff st.stories).1 hm
      refine ⟨0, fun _ => rfl, ?_, ?_, ?_, ?_, ?_⟩
      · exact fun mk hmk => Option.noConfusion hmk
      · simp [hnil, keys]
      · simp [create_story, maxKey, hm, hnil, lookup]
      · intro e he
        simp [create_story, maxKey, hm, hnil, lookup, he]
      · intro e ep he
        simp [create_story, maxKey, hm, hnil, lookup, he]
  | some mk =>
      have hfresh : mk + 1 ∉ keys st.stories := maxKey_succ_not_mem st.stories mk hm
      have hnone := lookup_eq_none _ _ hfresh
      refine ⟨mk + 1, ?_, ?_, hfresh, ?_, ?_, ?_⟩
      · intro hnil
        rw [hnil] at hm
        simp [maxKey] at hm
      · intro mk' hmk'
        injection hmk' with h
        omega
      · simp [create_story, hm, hnone]
      · intro e he
        simp [create_story, hm, hnone, he]
      · intro e ep he
        simp [create_story, hm, hnone, he]

/-- Characterisation of the cascade loop of `delete_epic` when every listed
story id is present exactly once: every inner delete succeeds, epics are
untouched, and exactly the listed keys disappear from `stories`. -/
theorem cascade_ok (l : List ItemId) (st : DB)
    (hnd : (l.map ItemId.val).Nodup)
    (hmem : ∀ i ∈ l, i.val ∈ keys st.stories)
    (hks : (keys st.stories).Nodup) :
    ∃ st', cascade st l = (Outcome.ok (), st') ∧
      st'.epics = st.epics ∧
      (keys st'.stories).Nodup ∧
      (∀ k, k ∈ keys st'.stories ↔ k ∈ keys st.stories ∧ k ∉ l.map ItemId.val) := by
  induction l generalizing st with
  | nil => exact ⟨st, rfl, rfl, hks, by simp⟩
  | cons i rest ih =>
      have hi : i.val ∈ keys st.stories := hmem i (List.mem_cons_self _ _)
      simp only [List.map_cons, List.nodup_cons] at hnd
      obtain ⟨hihead, hndrest⟩ := hnd
      have heq := delete_story_none_eq st i hi
      have hsub := keys_removeKey_sublist st.stories i.val
      have hks1 : (keys (removeKey st.stories i.val).2).Nodup := hks.sublist hsub
      have hmem1 : ∀ j ∈ rest, j.val ∈ keys (removeKey st.stories i.val).2 := by
        intro j hj
        have hjne : j.val ≠ i.val := by
          intro hcontra
          exact hihead (hcontra ▸ List.mem_map_of_mem ItemId.val hj)
        exact mem_keys_removeKey_of_ne _ _ _ (hmem j (List.mem_cons_of_mem _ hj)) hjne
      obtain ⟨st', hcasc, hepics, hnod, hchar⟩ :=
        ih ⟨clearStoryMark st.last_item i, st.epics, (removeKey st.stories i.val).2⟩
          hndrest hmem1 hks1
      refine ⟨st', ?_, hepics, hnod, ?_⟩
      · simp only [cascade, heq]
        exact hcasc
      · intro k
        rw [hchar k]
        show k ∈ keys (removeKey st.stories i.val).2 ∧ _ ↔ _
        rw [mem_keys_removeKey_iff st.stories i.val k hks]
        simp only [List.map_cons, List.mem_cons]
        constructor
        · rintro ⟨⟨hmemk, hne⟩, hnotin⟩
          exact ⟨hmemk, by rintro (h | h); exacts [hne h, hnotin h]⟩
        · rintro ⟨hmemk, hnot⟩
          exact ⟨⟨hmemk, fun h => hnot (Or.inl h)⟩, fun h => hnot (Or.inr h)⟩

/-- Characterisation of a successful `delete_epic`: under the same
conditions the cascade completes, the epic entry is removed from the re-read
document, and its stories are gone from the global collection.  Note the
epics of the final document come from the re-read state, so the `last_item`
clearing of the first read is discarded. -/
theorem delete_epic_ok (st : DB) (e : ItemId) (ep : Epic)
    (he : lookup st.epics e.val = some ep)
    (hnd : (ep.stories.map ItemId.val).Nodup)
    (hmem : ∀ i ∈ ep.stories, i.val ∈ keys st.stories)
    (hks : (keys st.stories).Nodup) :
    ∃ st', delete_epic st e = (Outcome.ok (), st') ∧
      st'.epics = (removeKey st.epics e.val).2 ∧
      (keys st'.stories).Nodup ∧
      (∀ k, k ∈ keys st'.stories ↔
        k ∈ keys st.stories ∧ k ∉ ep.stories.map ItemId.val) := by
  obtain ⟨st1, hcasc, hepics, hnod, hchar⟩ := cascade_ok ep.stories st hnd hmem hks
  have hrm : (removeKey st1.epics e.val).1 = some ep := by
    rw [removeKey_fst, hepics, he]
  refine ⟨{ st1 with epics := (removeKey st1.epics e.val).2 }, ?_, ?_, hnod, hchar⟩
  · simp only [delete_epic, he, hcasc, hrm]
  · simp [hepics]

/-- `allRefs` is unchanged by a `modifyKey` whose function preserves the
`stories` field (the status updates). -/
theorem allRefs_modifyKey_stories_eq (f : Epic → Epic)
    (hf : ∀ ep, (f ep).stories = ep.stories) (E : List (Nat × Epic)) (k : Nat) :
    allRefs (modifyKey f E k) = allRefs E := by
  induction E with
  | nil => rfl
  | cons p rest ih =>
      obtain ⟨k', v⟩ := p
      by_cases h : k' = k
      · simp [modifyKey, allRefs, h, hf]
      · simp [modifyKey, allRefs, h, ih]

theorem mem_keys_of_lookup (m : List (Nat × α)) (k : Nat) (v : α)
    (h : lookup m k = some v) : k ∈ keys m := by
  by_contra hk
  rw [lookup_eq_none m k hk] at h
  cases h

theorem lookup_decomp_self (l₁ l₂ : List (Nat × α)) (k : Nat) (v : α)
    (h : k ∉ keys l₁) : lookup (l₁ ++ (k, v) :: l₂) k = some v := by
  rw [lookup_append_right l₁ _ k h]
  simp [lookup]

/-! ### Concrete documents used by witnesses and counterexamples.
`dbOneEpicOneStory` is the state reached from an empty document by
`create_epic` then `create_story(_, _, Some(0))` (with the `last_item`
marker reset); the dangling variants are reached by further
`delete_story(_, None)` calls. -/

def sampleDetail (i : Nat) : ItemDetail := ⟨"", ⟨i⟩, "", ItemStatus.Open⟩

def sampleEpic (i : Nat) (stories : List ItemId) : Epic := ⟨sampleDetail i, stories⟩

def sampleStory (i : Nat) : Story := ⟨sampleDetail i⟩

def samplePrompts (confirm : Bool) : Prompts :=
  ⟨sampleEpic 0 [], sampleStory 0, confirm, confirm, none⟩

def emptyDB : DB := ⟨ItemType.None, [], []⟩

def dbOneEpicOneStory : DB :=
  ⟨ItemType.None, [(0, sampleEpic 0 [⟨0⟩])], [(0, sampleStory 0)]⟩

/-- One epic whose `stories` still lists id 0 although story 0 is gone from
the global collection (the state `delete_story(0, None)` leaves behind). -/
def dbDanglingEpic : DB := ⟨ItemType.None, [(0, sampleEpic 0 [⟨0⟩])], []⟩

/-- Epic 0 lists stories 0 and 1, but story 1 is gone from the global
collection (the state `delete_story(1, None)` leaves behind). -/
def dbCascadeBad : DB :=
  ⟨ItemType.None, [(0, sampleEpic 0 [⟨0⟩, ⟨1⟩])], [(0, sampleStory 0)]⟩

/-- Two epics both listing story 0. -/
def dbSharedRef : DB :=
  ⟨ItemType.None, [(0, sampleEpic 0 [⟨0⟩]), (1, sampleEpic 1 [⟨0⟩])],
   [(0, sampleStory 0)]⟩

/-- Single epic, no stories, `last_item` pointing at the epic. -/
def dbEpicOnlyLast : DB := ⟨ItemType.Epic ⟨0⟩, [(0, sampleEpic 0 [])], []⟩

/-! ### Claim theorems -/

/-- C6: for each collection independently, the id assigned by
`create_epic` / `create_story` is 0 when the collection is empty and
1 + the maximum existing key otherwise; in particular an emptied collection
restarts at 0, and the assigned id exceeds every existing key (never reused
below the maximum). -/
theorem id_assignment (st : DB) (n d : String) :
    ((st.epics = [] → (create_epic st n d).1 = Outcome.ok ⟨0⟩) ∧
     (∀ mk, maxKey st.epics = some mk →
        (create_epic st n d).1 = Outcome.ok ⟨mk + 1⟩) ∧
     (∀ id, (create_epic st n d).1 = Outcome.ok id →
        ∀ k ∈ keys st.epics, k < id.val)) ∧
    ((st.stories = [] → (create_story st n d none).1 = Outcome.ok ⟨0⟩) ∧
     (∀ mk, maxKey st.stories = some mk →
        (create_story st n d none).1 = Outcome.ok ⟨mk + 1⟩) ∧
     (∀ oe id, (create_story st n d oe).1 = Outcome.ok id →
        ∀ k ∈ keys st.stories, k < id.val)) := by
  obtain ⟨fe, he0, hemax, hefresh, heeq⟩ := create_epic_eq st n d
  obtain ⟨fs, hs0, hsmax, hsfresh, hsnone, hserr, hssome⟩ := create_story_eq st n d
  have hbound : ∀ (m : List (Nat × Epic)) (f : Nat), (m = [] → f = 0) →
      (∀ mk, maxKey m = some mk → f = mk + 1) → ∀ k ∈ keys m, k < f := by
    intro m f h0 hmax k hk
    cases hm : maxKey m with
    | none =>
        rw [maxKey_eq_none_iff] at hm
        subst hm
        simp [keys] at hk
    | some mk =>
        have := le_maxKey_of_mem m mk k hm hk
        rw [hmax mk hm]
        omega
  have hbound' : ∀ (m : List (Nat × Story)) (f : Nat), (m = [] → f = 0) →
      (∀ mk, maxKey m = some mk → f = mk + 1) → ∀ k ∈ keys m, k < f := by
    intro m f h0 hmax k hk
    cases hm : maxKey m with
    | none =>
        rw [maxKey_eq_none_iff] at hm
        subst hm
        simp [keys] at hk
    | some mk =>
        have := le_maxKey_of_mem m mk k hm hk
        rw [hmax mk hm]
        omega
  refine ⟨⟨?_, ?_, ?_⟩, ⟨?_, ?_, ?_⟩⟩
  · intro hnil
    rw [heeq, he0 hnil]
  · intro mk hmk
    rw [heeq, hemax mk hmk]
  · intro id hok k hk
    rw [heeq] at hok
    simp only [Outcome.ok.injEq] at hok
    subst hok
    exact hbound st.epics fe he0 hemax k hk
  · intro hnil
    rw [hsnone, hs0 hnil]
  · intro mk hmk
    rw [hsnone, hsmax mk hmk]
  · intro oe id hok k hk
    have hid : id = ⟨fs⟩ := by
      cases oe with
      | none =>
          rw [hsnone] at hok
          simp only [Outcome.ok.injEq] at hok
          exact hok.symm
      | some e =>
          cases hl : lookup st.epics e.val with
          | none =>
              rw [hserr e hl] at hok
              cases hok
          | some ep =>
              rw [hssome e ep hl] at hok
              simp only [Outcome.ok.injEq] at hok
              exact hok.symm
    subst hid
    exact hbound' st.stories fs hs0 hsmax k hk

/-- C6 witness: concrete instantiations of `id_assignment` on the empty
document and on a document with one epic and one story (both collections
have maximum key 0, so the next ids are 1). -/
theorem id_assignment_witness :
    (emptyDB.epics = [] ∧ (create_epic emptyDB "n" "d").1 = Outcome.ok ⟨0⟩) ∧
    (maxKey dbOneEpicOneStory.epics = some 0 ∧
      (create_epic dbOneEpicOneStory "n" "d").1 = Outcome.ok ⟨1⟩) ∧
    (maxKey dbOneEpicOneStory.stories = some 0 ∧
      (create_story dbOneEpicOneStory "n" "d" none).1 = Outcome.ok ⟨1⟩) ∧
    (∀ k ∈ keys dbOneEpicOneStory.stories, k < (1 : Nat)) :=
  ⟨⟨rfl, (id_assignment emptyDB "n" "d").1.1 rfl⟩,
   ⟨rfl, (id_assignment dbOneEpicOneStory "n" "d").1.2.1 0 rfl⟩,
   ⟨rfl, (id_assignment dbOneEpicOneStory "n" "d").2.2.1 0 rfl⟩,
   (id_assignment dbOneEpicOneStory "n" "d").2.2.2 none ⟨1⟩ (by decide)⟩

/-- C9: in `delete_story(story_id, Some(epic_id))` with the epic present,
the removal aborts fatally (`panicked`, the `position(..).unwrap()`) exactly
when `story_id` is absent from that epic's `stories` sequence; when it is
present the fatal branch is unreachable. -/
theorem delete_story_membership_panic (st : DB) (s e : ItemId) (ep : Epic)
    (he : lookup st.epics e.val = some ep) :
    (s.val ∈ ep.stories.map ItemId.val →
       (delete_story st s (some e)).1 ≠ Outcome.panicked) ∧
    (s.val ∉ ep.stories.map ItemId.val →
       (delete_story st s (some e)).1 = Outcome.panicked) := by
  constructor
  · intro hmem
    cases hp : position s ep.stories with
    | none => exact absurd hmem ((position_eq_none_iff s ep.stories).1 hp)
    | some idx =>
        cases hs : lookup st.stories s.val with
        | some v =>
            rw [delete_story_some_eq st s e ep idx v he hp hs]
            simp
        | none =>
            rw [delete_story_some_story_missing st s e ep idx he hp hs]
            simp
  · intro hmem
    have hp : position s ep.stories = none :=
      (position_eq_none_iff s ep.stories).2 hmem
    rw [delete_story_panic st s e ep he hp]

/-- C9 witness: on `dbOneEpicOneStory`, story 0 is listed in epic 0, so
deleting it with the epic named does not abort; story 7 is not listed, so
deleting story 7 with epic 0 named aborts. -/
theorem delete_story_membership_panic_witness :
    (lookup dbOneEpicOneStory.epics 0 = some (sampleEpic 0 [⟨0⟩]) ∧
      (delete_story dbOneEpicOneStory ⟨0⟩ (some ⟨0⟩)).1 ≠ Outcome.panicked) ∧
    (delete_story dbOneEpicOneStory ⟨7⟩ (some ⟨0⟩)).1 = Outcome.panicked :=
  ⟨⟨by decide,
    (delete_story_membership_panic dbOneEpicOneStory ⟨0⟩ ⟨0⟩ (sampleEpic 0 [⟨0⟩])
      (by decide)).1 (by decide)⟩,
   (delete_story_membership_panic dbOneEpicOneStory ⟨7⟩ ⟨0⟩ (sampleEpic 0 [⟨0⟩])
      (by decide)).2 (by decide)⟩

/-- C10: every epic created by `create_epic` and every story created by
`create_story` is persisted with `detail.status = Open` and with
`detail.id` equal to the returned `ItemId`. -/
theorem created_items_open (st : DB) (n d : String) :
    (∀ id st', create_epic st n d = (Outcome.ok id, st') →
       ∃ ep, lookup st'.epics id.val = some ep ∧
         ep.detail.status = ItemStatus.Open ∧ ep.detail.id = id) ∧
    (∀ oe id st', create_story st n d oe = (Outcome.ok id, st') →
       ∃ s, lookup st'.stories id.val = some s ∧
         s.detail.status = ItemStatus.Open ∧ s.detail.id = id) := by
  obtain ⟨fe, he0, hemax, hefresh, heeq⟩ := create_epic_eq st n d
  obtain ⟨fs, hs0, hsmax, hsfresh, hsnone, hserr, hssome⟩ := create_story_eq st n d
  constructor
  · intro id st' h
    rw [heeq] at h
    injection h with h1 h2
    injection h1 with h1
    subst h1
    subst h2
    refine ⟨⟨⟨d, ⟨fe⟩, n, ItemStatus.Open⟩, []⟩, ?_, rfl, rfl⟩
    exact lookup_decomp_self st.epics [] fe _ hefresh
  · intro oe id st' h
    have hstories : ∀ (id : ItemId) (st' : DB),
        st'.stories = st.stories ++ [(fs, ⟨⟨d, ⟨fs⟩, n, ItemStatus.Open⟩⟩)] →
        id = (⟨fs⟩ : ItemId) →
        ∃ s : Story, lookup st'.stories id.val = some s ∧
          s.detail.status = ItemStatus.Open ∧ s.detail.id = id := by
      intro id st' hs hid
      subst hid
      refine ⟨⟨⟨d, ⟨fs⟩, n, ItemStatus.Open⟩⟩, ?_, rfl, rfl⟩
      rw [hs]
      exact lookup_decomp_self st.stories [] fs _ hsfresh
    cases oe with
    | none =>
        rw [hsnone] at h
        injection h with h1 h2
        injection h1 with h1
        exact hstories id st' (by rw [← h2]) h1.symm
    | some e =>
        cases hl : lookup st.epics e.val with
        | none =>
            rw [hserr e hl] at h
            injection h with h1 h2
            cases h1
        | some ep =>
            rw [hssome e ep hl] at h
            injection h with h1 h2
            injection h1 with h1
            exact hstories id st' (by rw [← h2]) h1.symm

/-- C10 witness: creating an epic and a story on the empty document yields
id 0, persisted with status Open. -/
theorem created_items_open_witness :
    (∃ ep, lookup (create_epic emptyDB "n" "d").2.epics 0 = some ep ∧
       ep.detail.status = ItemStatus.Open ∧ ep.detail.id = ⟨0⟩) ∧
    (∃ s, lookup (create_story emptyDB "n" "d" none).2.stories 0 = some s ∧
       s.detail.status = ItemStatus.Open ∧ s.detail.id = ⟨0⟩) :=
  ⟨(created_items_open emptyDB "n" "d").1 ⟨0⟩ (create_epic emptyDB "n" "d").2
      (by decide),
   (created_items_open emptyDB "n" "d").2 none ⟨0⟩
      (create_story emptyDB "n" "d" none).2 (by decide)⟩

/-- C2 (code bug): `delete_epic` is supposed to clear a `last_item` that
points at the deleted epic, and `db.rs` lines 154–158 clear it on the first
local copy — but the `db = self.database.read_db()?` re-read on line 165
discards that copy on every success path, so the persisted document still
has `last_item = Epic(0)` after deleting epic 0.  The create and
delete-story parts of the claim hold; this theorem evaluates the code at
the failing input `delete_epic(0)` with stored `last_item = Epic(0)`. -/
theorem delete_epic_last_item_bug :
    (delete_epic dbEpicOnlyLast ⟨0⟩).1 = Outcome.ok () ∧
    lookup (delete_epic dbEpicOnlyLast ⟨0⟩).2.epics 0 = none ∧
    (delete_epic dbEpicOnlyLast ⟨0⟩).2.last_item = ItemType.Epic ⟨0⟩ := by
  decide

/-- C8: a fresh `Navigator` has exactly the Home screen;
`NavigateToEpicDetail` then `NavigateToStoryDetail` reach stack depth 3;
two `NavigateToPreviousPage` return to depth 1; popping an empty stack is a
no-op; `Exit` empties the stack from any depth. -/
theorem navigation_stack_behaviour (st : DB) (p : Prompts) (e1 e2 s1 : Nat) :
    (Navigator.new st).pages = [Page.home] ∧
    ((handle_action
        (handle_action (Navigator.new st) p
          (Action.navigateToEpicDetail e1)).2 p
        (Action.navigateToStoryDetail e2 s1)).2.pages.length = 3) ∧
    ((handle_action
        (handle_action
          (handle_action
            (handle_action (Navigator.new st) p
              (Action.navigateToEpicDetail e1)).2 p
            (Action.navigateToStoryDetail e2 s1)).2 p
          Action.navigateToPreviousPage).2 p
        Action.navigateToPreviousPage).2.pages.length = 1) ∧
    (∀ nav : Navigator, nav.pages = [] →
       handle_action nav p Action.navigateToPreviousPage = (Outcome.ok (), nav)) ∧
    (∀ nav : Navigator, (handle_action nav p Action.exit).2.pages = []) := by
  refine ⟨rfl, ?_, ?_, ?_, ?_⟩
  · simp [handle_action, Navigator.new, popPages]
  · simp [handle_action, Navigator.new, popPages]
  · rintro ⟨pages, db⟩ h
    simp only at h
    subst h
    simp [handle_action, popPages]
  · intro nav
    simp [handle_action]

/-- C8 witness: the universally quantified parts applied to an empty-stack
navigator and to a depth-1 navigator over the empty document. -/
theorem navigation_stack_behaviour_witness :
    handle_action ⟨[], emptyDB⟩ (samplePrompts false) Action.navigateToPreviousPage
        = (Outcome.ok (), ⟨[], emptyDB⟩) ∧
    (handle_action (Navigator.new emptyDB) (samplePrompts false)
        Action.exit).2.pages = [] :=
  ⟨(navigation_stack_behaviour emptyDB (samplePrompts false) 0 0 0).2.2.2.1
      ⟨[], emptyDB⟩ rfl,
   (navigation_stack_behaviour emptyDB (samplePrompts false) 0 0 0).2.2.2.2
      (Navigator.new emptyDB)⟩

/-- C1 (amended): for a DeleteEpic or DeleteStory dispatch, the navigation
stack is popped exactly once (when non-empty) when the user declines the
confirmation prompt or when the store delete call succeeds; when the store
call returns an error (or aborts), `handle_action` propagates it *before*
reaching the pop, leaving the stack unchanged. -/
theorem delete_dispatch_pop (nav : Navigator) (p : Prompts) (e s : Nat) :
    (p.delete_epic = false →
       handle_action nav p (Action.deleteEpic e) =
         (Outcome.ok (), { nav with pages := popPages nav.pages })) ∧
    (∀ st', p.delete_epic = true →
       delete_epic nav.db ⟨e⟩ = (Outcome.ok (), st') →
       handle_action nav p (Action.deleteEpic e) =
         (Outcome.ok (), { nav with db := st', pages := popPages nav.pages })) ∧
    (∀ err st', p.delete_epic = true →
       delete_epic nav.db ⟨e⟩ = (Outcome.error err, st') →
       handle_action nav p (Action.deleteEpic e) =
         (Outcome.error err, { nav with db := st' })) ∧
    (p.delete_story = false →
       handle_action nav p (Action.deleteStory e s) =
         (Outcome.ok (), { nav with pages := popPages nav.pages })) ∧
    (∀ st', p.delete_story = true →
       delete_story nav.db ⟨s⟩ (some ⟨e⟩) = (Outcome.ok (), st') →
       handle_action nav p (Action.deleteStory e s) =
         (Outcome.ok (), { nav with db := st', pages := popPages nav.pages })) ∧
    (∀ err st', p.delete_story = true →
       delete_story nav.db ⟨s⟩ (some ⟨e⟩) = (Outcome.error err, st') →
       handle_action nav p (Action.deleteStory e s) =
         (Outcome.error err, { nav with db := st' })) ∧
    (∀ st', p.delete_story = true →
       delete_story nav.db ⟨s⟩ (some ⟨e⟩) = (Outcome.panicked, st') →
       handle_action nav p (Action.deleteStory e s) =
         (Outcome.panicked, { nav with db := st' })) := by
  refine ⟨?_, ?_, ?_, ?_, ?_, ?_, ?_⟩
  · intro h
    simp [handle_action, h]
  · intro st' h heq
    simp [handle_action, h, heq]
  · intro err st' h heq
    simp [handle_action, h, heq]
  · intro h
    simp [handle_action, h]
  · intro st' h heq
    simp [handle_action, h, heq]
  · intro err st' h heq
    simp [handle_action, h, heq]
  · intro st' h heq
    simp [handle_action, h, heq]

/-- C1 counterexample: on a depth-1 stack with an empty document and a
confirming user, dispatching `DeleteEpic 0` makes the store call fail
(`Epic 0` does not exist); the claim demands a pop even then, but the
stack still holds Home — no pop happened. -/
theorem delete_dispatch_pop_counterexample :
    (Navigator.new emptyDB).pages.length = 1 ∧
    (samplePrompts true).delete_epic = true ∧
    (handle_action (Navigator.new emptyDB) (samplePrompts true)
        (Action.deleteEpic 0)).1 = Outcome.error (JiraError.epicNotFound ⟨0⟩) ∧
    (handle_action (Navigator.new emptyDB) (samplePrompts true)
        (Action.deleteEpic 0)).2.pages = (Navigator.new emptyDB).pages := by
  decide

/-- C1 witness: the declined-prompt case pops, and the confirmed successful
delete on `dbOneEpicOneStory` pops and persists the emptied document. -/
theorem delete_dispatch_pop_witness :
    (handle_action (Navigator.new dbOneEpicOneStory) (samplePrompts false)
        (Action.deleteEpic 0) =
      (Outcome.ok (),
        { Navigator.new dbOneEpicOneStory with
          pages := popPages (Navigator.new dbOneEpicOneStory).pages })) ∧
    (handle_action (Navigator.new dbOneEpicOneStory) (samplePrompts true)
        (Action.deleteEpic 0) =
      (Outcome.ok (),
        { Navigator.new dbOneEpicOneStory with
          db := emptyDB,
          pages := popPages (Navigator.new dbOneEpicOneStory).pages })) :=
  ⟨(delete_dispatch_pop (Navigator.new dbOneEpicOneStory) (samplePrompts false)
      0 0).1 rfl,
   (delete_dispatch_pop (Navigator.new dbOneEpicOneStory) (samplePrompts true)
      0 0).2.1 emptyDB rfl (by decide)⟩

/-- C3 counterexample: `dbOneEpicOneStory` satisfies I1, and the top-level
call `delete_story(0, None)` succeeds — but it removes story 0 from the
global collection without touching epic 0's `stories` sequence, so the
resulting persisted document violates I1 between top-level operations. -/
theorem store_preserves_integrity_counterexample :
    refIntact dbOneEpicOneStory ∧
    (delete_story dbOneEpicOneStory ⟨0⟩ none).1 = Outcome.ok () ∧
    ¬ refIntact (delete_story dbOneEpicOneStory ⟨0⟩ none).2 := by
  decide

/-- C4 counterexample: on `dbCascadeBad` (epic 0 lists stories 0 and 1 but
story 1 is missing — the state a prior `delete_story(1, None)` leaves
behind), `delete_epic(0)` returns an error, yet the cascade has already
persisted the deletion of story 0: the operation errors *and* changes the
persisted document. -/
theorem notfound_atomicity_counterexample :
    (delete_epic dbCascadeBad ⟨0⟩).1 =
      Outcome.error (JiraError.storyNotFound ⟨1⟩) ∧
    (delete_epic dbCascadeBad ⟨0⟩).2 ≠ dbCascadeBad := by
  decide

/-- C5 counterexample: in `dbSharedRef` epic 0's stories (just story 0) are
all present, so the claim applies; `delete_epic(0)` succeeds and removes
epic 0 and story 0, but epic 1's `stories` sequence still references the
deleted story 0 — a dangling reference remains. -/
theorem cascade_delete_counterexample :
    (delete_epic dbSharedRef ⟨0⟩).1 = Outcome.ok () ∧
    lookup (delete_epic dbSharedRef ⟨0⟩).2.stories 0 = none ∧
    lookup (delete_epic dbSharedRef ⟨0⟩).2.epics 1 =
      some (sampleEpic 1 [⟨0⟩]) ∧
    ¬ refIntact (delete_epic dbSharedRef ⟨0⟩).2 := by
  decide

/-- C7 counterexample: in `dbDanglingEpic` (epic 0 present, its `stories`
danglingly lists id 0, global stories empty — the state a prior
`delete_story(0, None)` leaves behind), `create_story(_, _, Some(0))`
succeeds returning id 0, but epic 0's `stories` sequence then contains id 0
twice, not exactly once. -/
theorem create_story_membership_counterexample :
    (create_story dbDanglingEpic "n" "d" (some ⟨0⟩)).1 = Outcome.ok ⟨0⟩ ∧
    Option.map (fun ep => (ep.stories.map ItemId.val).count 0)
        (lookup (create_story dbDanglingEpic "n" "d" (some ⟨0⟩)).2.epics 0) =
      some 2 := by
  decide

theorem keys_cons (p : Nat × α) (m : List (Nat × α)) :
    keys (p :: m) = p.1 :: keys m := rfl

theorem nodup_drop_middle (A M B : List Nat)
    (h : (A ++ (M ++ B)).Nodup) :
    (A ++ B).Nodup ∧ ∀ x ∈ A ++ B, x ∉ M := by
  rw [List.nodup_append] at h
  obtain ⟨hA, hMB, hdis⟩ := h
  rw [List.nodup_append] at hMB
  obtain ⟨hM, hB, hMBdis⟩ := hMB
  constructor
  · rw [List.nodup_append]
    refine ⟨hA, hB, ?_⟩
    intro a ha hb
    exact hdis ha (List.mem_append_right M hb)
  · intro x hx hxM
    rcases List.mem_append.1 hx with hA' | hB'
    · exact hdis hA' (List.mem_append_left B hxM)
    · exact hMBdis hxM hB'

theorem nodup_insert_middle (A M B : List Nat) (x : Nat)
    (h : (A ++ (M ++ B)).Nodup) (hx : x ∉ A ++ (M ++ B)) :
    (A ++ (M ++ x :: B)).Nodup := by
  have h2 : A ++ (M ++ B) = (A ++ M) ++ B := by simp [List.append_assoc]
  rw [h2] at h hx
  have hcons : (x :: ((A ++ M) ++ B)).Nodup := List.nodup_cons.2 ⟨hx, h⟩
  have h1 : A ++ (M ++ x :: B) = (A ++ M) ++ x :: B := by
    simp [List.append_assoc]
  rw [h1]
  exact List.perm_middle.symm.nodup hcons

theorem nodup_extract_middle (A M₁ M₂ B : List Nat) (x : Nat)
    (h : (A ++ (M₁ ++ x :: (M₂ ++ B))).Nodup) :
    (A ++ (M₁ ++ (M₂ ++ B))).Nodup ∧ x ∉ A ++ (M₁ ++ (M₂ ++ B)) := by
  have h1 : A ++ (M₁ ++ x :: (M₂ ++ B)) = (A ++ M₁) ++ x :: (M₂ ++ B) := by
    simp [List.append_assoc]
  have h2 : A ++ (M₁ ++ (M₂ ++ B)) = (A ++ M₁) ++ (M₂ ++ B) := by
    simp [List.append_assoc]
  rw [h1] at h
  have hcons : (x :: ((A ++ M₁) ++ (M₂ ++ B))).Nodup :=
    List.perm_middle.nodup h
  rw [List.nodup_cons] at hcons
  rw [h2]
  exact ⟨hcons.2, hcons.1⟩

/-- C7 (amended): after `create_story(n, d, Some(e))` succeeds on a document
in which every id already listed by epic `e` is a key of the stories
collection (I1 at `e` — without it the dangling duplicate of the
counterexample arises), epic `e`'s `stories` sequence contains the returned
id exactly once, and that id maps to a story with the given name and
description in the global collection. -/
theorem create_story_membership (st : DB) (n d : String) (e : ItemId)
    (ep : Epic)
    (he : lookup st.epics e.val = some ep)
    (hri : ∀ i ∈ ep.stories, i.val ∈ keys st.stories) :
    ∃ id st', create_story st n d (some e) = (Outcome.ok id, st') ∧
      (∃ ep', lookup st'.epics e.val = some ep' ∧
        (ep'.stories.map ItemId.val).count id.val = 1) ∧
      (∃ sv, lookup st'.stories id.val = some sv ∧
        sv.detail.name = n ∧ sv.detail.description = d) := by
  obtain ⟨fs, hs0, hsmax, hsfresh, hsnone, hserr, hssome⟩ := create_story_eq st n d
  obtain ⟨l₁, l₂, hdecomp, hnotl₁⟩ := lookup_some_decomp st.epics e.val ep he
  refine ⟨(⟨fs⟩ : ItemId), _, hssome e ep he, ?_, ?_⟩
  · refine ⟨{ ep with stories := ep.stories ++ [(⟨fs⟩ : ItemId)] }, ?_, ?_⟩
    · show lookup (modifyKey _ st.epics e.val) e.val = _
      rw [hdecomp, modifyKey_decomp _ _ _ _ _ hnotl₁]
      exact lookup_decomp_self _ _ _ _ hnotl₁
    · have hfs_not : fs ∉ ep.stories.map ItemId.val := by
        intro hmem
        obtain ⟨i, hi, hival⟩ := List.mem_map.1 hmem
        have hk : i.val ∈ keys st.stories := hri i hi
        rw [hival] at hk
        exact hsfresh hk
      show ((ep.stories ++ [(⟨fs⟩ : ItemId)]).map ItemId.val).count fs = 1
      rw [List.map_append, List.count_append, List.count_eq_zero.2 hfs_not]
      simp
  · refine ⟨⟨⟨d, ⟨fs⟩, n, ItemStatus.Open⟩⟩, ?_, rfl, rfl⟩
    show lookup (st.stories ++ [(fs, _)]) fs = _
    exact lookup_decomp_self st.stories [] fs _ hsfresh

/-- C7 witness: instantiation on `dbOneEpicOneStory` (epic 0 owns story 0,
which is present): the new story gets id 1, listed exactly once. -/
theorem create_story_membership_witness :
    (∀ i ∈ (sampleEpic 0 [⟨0⟩]).stories, i.val ∈ keys dbOneEpicOneStory.stories) ∧
    (∃ id st',
      create_story dbOneEpicOneStory "n" "d" (some ⟨0⟩) = (Outcome.ok id, st') ∧
      (∃ ep', lookup st'.epics (ItemId.val ⟨0⟩) = some ep' ∧
        (ep'.stories.map ItemId.val).count id.val = 1) ∧
      (∃ sv, lookup st'.stories id.val = some sv ∧
        sv.detail.name = "n" ∧ sv.detail.description = "d")) :=
  ⟨by decide,
   create_story_membership dbOneEpicOneStory "n" "d" ⟨0⟩ (sampleEpic 0 [⟨0⟩])
     (by decide) (by decide)⟩

/-- C5 (amended): `delete_epic(e)` on an epic whose listed stories are all
present, pairwise distinct, and referenced by no other epic (the
counterexamples show the claim fails without the last two conditions;
unique map keys are the `HashMap` invariant) succeeds and removes the epic
and every listed story, leaving no epic referencing any of them. -/
theorem cascade_delete_removes_all (st : DB) (e : ItemId) (ep : Epic)
    (he : lookup st.epics e.val = some ep)
    (hmem : ∀ i ∈ ep.stories, i.val ∈ keys st.stories)
    (hnd : (ep.stories.map ItemId.val).Nodup)
    (hkS : (keys st.stories).Nodup)
    (hkE : (keys st.epics).Nodup)
    (hexcl : ∀ p ∈ st.epics, Prod.fst p ≠ e.val →
       ∀ i ∈ (Prod.snd p).stories, i.val ∉ ep.stories.map ItemId.val) :
    ∃ st', delete_epic st e = (Outcome.ok (), st') ∧
      lookup st'.epics e.val = none ∧
      (∀ i ∈ ep.stories, lookup st'.stories i.val = none) ∧
      (∀ p ∈ st'.epics, ∀ i ∈ ep.stories,
         i.val ∉ (Prod.snd p).stories.map ItemId.val) := by
  obtain ⟨st', heq, hepics, hnodS, hchar⟩ := delete_epic_ok st e ep he hnd hmem hkS
  obtain ⟨l₁, l₂, hdecomp, hnotl₁⟩ := lookup_some_decomp st.epics e.val ep he
  have hrm : (removeKey st.epics e.val).2 = l₁ ++ l₂ := by
    rw [hdecomp, removeKey_decomp l₁ l₂ e.val ep hnotl₁]
  have hkeysl₂ : e.val ∉ keys l₂ := by
    rw [hdecomp, keys_append, keys_cons, List.nodup_append] at hkE
    obtain ⟨_, h2, _⟩ := hkE
    rw [List.nodup_cons] at h2
    exact h2.1
  refine ⟨st', heq, ?_, ?_, ?_⟩
  · rw [hepics, hrm]
    apply lookup_eq_none
    rw [keys_append]
    intro hx
    rcases List.mem_append.1 hx with h | h
    · exact hnotl₁ h
    · exact hkeysl₂ h
  · intro i hi
    apply lookup_eq_none
    intro hk
    exact ((hchar i.val).1 hk).2 (List.mem_map_of_mem ItemId.val hi)
  · intro p hp i hi hmemp
    rw [hepics, hrm] at hp
    have hne : p.1 ≠ e.val := by
      rcases List.mem_append.1 hp with h | h
      · intro hcontra
        exact hnotl₁ (hcontra ▸ List.mem_map_of_mem Prod.fst h)
      · intro hcontra
        exact hkeysl₂ (hcontra ▸ List.mem_map_of_mem Prod.fst h)
    have hpst : p ∈ st.epics := by
      rw [hdecomp]
      rcases List.mem_append.1 hp with h | h
      · exact List.mem_append_left _ h
      · exact List.mem_append_right _ (List.mem_cons_of_mem _ h)
    obtain ⟨j, hj, hjval⟩ := List.mem_map.1 hmemp
    exact hexcl p hpst hne j hj (hjval ▸ List.mem_map_of_mem ItemId.val hi)

/-- C5 witness: instantiation on `dbOneEpicOneStory`: deleting epic 0
cascades away story 0 and leaves no reference to it. -/
theorem cascade_delete_removes_all_witness :
    (∀ i ∈ (sampleEpic 0 [⟨0⟩]).stories, i.val ∈ keys dbOneEpicOneStory.stories) ∧
    (∃ st', delete_epic dbOneEpicOneStory ⟨0⟩ = (Outcome.ok (), st') ∧
      lookup st'.epics (ItemId.val ⟨0⟩) = none ∧
      (∀ i ∈ (sampleEpic 0 [⟨0⟩]).stories, lookup st'.stories i.val = none) ∧
      (∀ p ∈ st'.epics, ∀ i ∈ (sampleEpic 0 [⟨0⟩]).stories,
         i.val ∉ (Prod.snd p).stories.map ItemId.val)) :=
  ⟨by decide,
   cascade_delete_removes_all dbOneEpicOneStory ⟨0⟩ (sampleEpic 0 [⟨0⟩])
     (by decide) (by decide) (by decide) (by decide) (by decide) (by decide)⟩

/-- C4 (amended): the five unknown-id operations fail with the structured
NotFound error carrying the right kind and id and leave the persisted
document unchanged, with one exception forced by the code:
`delete_story(unknown, Some(e))` with `e` present aborts fatally instead of
returning NotFound (still without writing).  General either-completes-or-
leaves-unchanged atomicity holds for `delete_epic` only when the epic's
listed stories are present and pairwise distinct (the counterexample shows
a partial cascade write otherwise): under those conditions `delete_epic`
completes. -/
theorem notfound_atomicity (st : DB) :
    (∀ n d e, lookup st.epics e.val = none →
       create_story st n d (some e) =
         (Outcome.error (JiraError.epicNotFound e), st)) ∧
    (∀ e, lookup st.epics e.val = none →
       delete_epic st e = (Outcome.error (JiraError.epicNotFound e), st)) ∧
    (∀ s, lookup st.stories s.val = none →
       delete_story st s none = (Outcome.error (JiraError.storyNotFound s), st)) ∧
    (∀ s e, lookup st.epics e.val = none →
       delete_story st s (some e) =
         (Outcome.error (JiraError.epicNotFound e), st)) ∧
    (∀ s e ep, lookup st.epics e.val = some ep →
       lookup st.stories s.val = none →
       (∀ i ∈ ep.stories, i.val ∈ keys st.stories) →
       delete_story st s (some e) = (Outcome.panicked, st)) ∧
    (∀ e stat, lookup st.epics e.val = none →
       update_epic_status st e stat =
         (Outcome.error (JiraError.epicNotFound e), st)) ∧
    (∀ s stat, lookup st.stories s.val = none →
       update_story_status st s stat =
         (Outcome.error (JiraError.storyNotFound s), st)) ∧
    (∀ e ep, lookup st.epics e.val = some ep →
       (ep.stories.map ItemId.val).Nodup →
       (∀ i ∈ ep.stories, i.val ∈ keys st.stories) →
       (keys st.stories).Nodup →
       (delete_epic st e).1 = Outcome.ok ()) := by
  refine ⟨?_, ?_, ?_, ?_, ?_, ?_, ?_, ?_⟩
  · intro n d e he
    obtain ⟨fs, _, _, _, _, hserr, _⟩ := create_story_eq st n d
    exact hserr e he
  · exact fun e he => delete_epic_missing st e he
  · exact fun s hs => delete_story_none_err st s hs
  · exact fun s e he => delete_story_epic_missing st s e he
  · intro s e ep he hs hri
    have hnot : s.val ∉ ep.stories.map ItemId.val := by
      intro hmem
      obtain ⟨i, hi, hival⟩ := List.mem_map.1 hmem
      have hk : i.val ∈ keys st.stories := hri i hi
      rw [hival] at hk
      obtain ⟨v, hv⟩ := exists_lookup_of_mem_keys _ _ hk
      rw [hv] at hs
      cases hs
    exact delete_story_panic st s e ep he
      ((position_eq_none_iff s ep.stories).2 hnot)
  · exact fun e stat he => update_epic_status_missing st e stat he
  · exact fun s stat hs => update_story_status_missing st s stat hs
  · intro e ep he hnd hri hkS
    obtain ⟨st', heq, _, _, _⟩ := delete_epic_ok st e ep he hnd hri hkS
    rw [heq]

/-- C4 witness: instantiation on `dbOneEpicOneStory` with unknown ids 8/9
(errors leave the document untouched), the fatal-abort case, and the
completing cascade delete of epic 0. -/
theorem notfound_atomicity_witness :
    (create_story dbOneEpicOneStory "n" "d" (some ⟨9⟩) =
      (Outcome.error (JiraError.epicNotFound ⟨9⟩), dbOneEpicOneStory)) ∧
    (delete_epic dbOneEpicOneStory ⟨9⟩ =
      (Outcome.error (JiraError.epicNotFound ⟨9⟩), dbOneEpicOneStory)) ∧
    (delete_story dbOneEpicOneStory ⟨9⟩ none =
      (Outcome.error (JiraError.storyNotFound ⟨9⟩), dbOneEpicOneStory)) ∧
    (delete_story dbOneEpicOneStory ⟨9⟩ (some ⟨8⟩) =
      (Outcome.error (JiraError.epicNotFound ⟨8⟩), dbOneEpicOneStory)) ∧
    (delete_story dbOneEpicOneStory ⟨9⟩ (some ⟨0⟩) =
      (Outcome.panicked, dbOneEpicOneStory)) ∧
    (update_epic_status dbOneEpicOneStory ⟨9⟩ ItemStatus.Closed =
      (Outcome.error (JiraError.epicNotFound ⟨9⟩), dbOneEpicOneStory)) ∧
    (update_story_status dbOneEpicOneStory ⟨9⟩ ItemStatus.Closed =
      (Outcome.error (JiraError.storyNotFound ⟨9⟩), dbOneEpicOneStory)) ∧
    ((delete_epic dbOneEpicOneStory ⟨0⟩).1 = Outcome.ok ()) :=
  ⟨(notfound_atomicity dbOneEpicOneStory).1 "n" "d" ⟨9⟩ (by decide),
   (notfound_atomicity dbOneEpicOneStory).2.1 ⟨9⟩ (by decide),
   (notfound_atomicity dbOneEpicOneStory).2.2.1 ⟨9⟩ (by decide),
   (notfound_atomicity dbOneEpicOneStory).2.2.2.1 ⟨9⟩ ⟨8⟩ (by decide),
   (notfound_atomicity dbOneEpicOneStory).2.2.2.2.1 ⟨9⟩ ⟨0⟩
     (sampleEpic 0 [⟨0⟩]) (by decide) (by decide) (by decide),
   (notfound_atomicity dbOneEpicOneStory).2.2.2.2.2.1 ⟨9⟩ ItemStatus.Closed
     (by decide),
   (notfound_atomicity dbOneEpicOneStory).2.2.2.2.2.2.1 ⟨9⟩ ItemStatus.Closed
     (by decide),
   (notfound_atomicity dbOneEpicOneStory).2.2.2.2.2.2.2 ⟨0⟩
     (sampleEpic 0 [⟨0⟩]) (by decide) (by decide) (by decide) (by decide)⟩

theorem WF_def (st : DB) : WF st ↔
    (keys st.epics).Nodup ∧ (keys st.stories).Nodup ∧ refIntact st ∧
      (allRefs st.epics).Nodup := Iff.rfl

theorem WF_mk (marker : ItemType) (E : List (Nat × Epic))
    (S : List (Nat × Story))
    (h1 : (keys E).Nodup) (h2 : (keys S).Nodup)
    (h3 : ∀ x ∈ allRefs E, x ∈ keys S) (h4 : (allRefs E).Nodup) :
    WF ⟨marker, E, S⟩ :=
  (WF_def _).2 ⟨h1, h2, (refIntact_iff _).2 h3, h4⟩

/-- C3 (amended): I1 (together with unique map keys and single ownership of
stories, both of which hold for every document the operations construct) is
preserved by every top-level store operation — whatever its outcome — with
the single exception forced by the counterexample: `delete_story(s, None)`
preserves it only when no epic's `stories` sequence references `s`
(`sideCond`).  Any sequence of top-level calls respecting `sideCond`
therefore keeps every observable document I1-consistent; the cascade's
intermediate writes live inside `delete_epic` only. -/
theorem store_preserves_integrity (st : DB) (c : StoreCall)
    (hwf : WF st) (hc : sideCond st c) : WF (runCall st c) := by
  obtain ⟨hkE, hkS, hRI, hAR⟩ := (WF_def st).1 hwf
  have hsub : ∀ x ∈ allRefs st.epics, x ∈ keys st.stories :=
    (refIntact_iff st).1 hRI
  cases c with
  | createEpicCall n d =>
      obtain ⟨fid, h0, hmax, hfresh, heq⟩ := create_epic_eq st n d
      simp only [runCall, heq]
      apply WF_mk
      · rw [keys_append, List.nodup_append]
        refine ⟨hkE, by simp [keys], ?_⟩
        rw [List.disjoint_left]
        intro a ha hb
        simp only [keys, List.map_cons, List.map_nil, List.mem_singleton] at hb
        subst hb
        exact hfresh ha
      · exact hkS
      · intro x hx
        rw [allRefs_append] at hx
        rcases List.mem_append.1 hx with h | h
        · exact hsub x h
        · simp [allRefs] at h
      · rw [allRefs_append]
        simpa [allRefs] using hAR
  | createStoryCall n d oe =>
      obtain ⟨fid, h0, hmax, hfresh, hnone, herr, hsome⟩ := create_story_eq st n d
      cases oe with
      | none =>
          simp only [runCall, hnone]
          apply WF_mk
          · exact hkE
          · rw [keys_append, List.nodup_append]
            refine ⟨hkS, by simp [keys], ?_⟩
            rw [List.disjoint_left]
            intro a ha hb
            simp only [keys, List.map_cons, List.map_nil, List.mem_singleton] at hb
            subst hb
            exact hfresh ha
          · intro x hx
            rw [keys_append]
            exact List.mem_append_left _ (hsub x hx)
          · exact hAR
      | some e =>
          cases hl : lookup st.epics e.val with
          | none =>
              simp only [runCall, herr e hl]
              exact hwf
          | some ep =>
              simp only [runCall, hsome e ep hl]
              obtain ⟨l₁, l₂, hdecomp, hnotl₁⟩ :=
                lookup_some_decomp st.epics e.val ep hl
              have hArst : allRefs st.epics =
                  allRefs l₁ ++ (ep.stories.map ItemId.val ++ allRefs l₂) := by
                rw [hdecomp, allRefs_append]
                rfl
              have hfid : fid ∉ allRefs st.epics := fun h => hfresh (hsub fid h)
              rw [hdecomp, modifyKey_decomp _ _ _ _ _ hnotl₁]
              apply WF_mk
              · have hkE' := hkE
                rw [hdecomp, keys_append, keys_cons] at hkE'
                rw [keys_append, keys_cons]
                exact hkE'
              · rw [keys_append, List.nodup_append]
                refine ⟨hkS, by simp [keys], ?_⟩
                rw [List.disjoint_left]
                intro a ha hb
                simp only [keys, List.map_cons, List.map_nil,
                  List.mem_singleton] at hb
                subst hb
                exact hfresh ha
              · intro x hx
                rw [allRefs_append] at hx
                rw [keys_append]
                simp only [allRefs, List.map_append] at hx
                simp only [List.mem_append] at hx
                have hxold : x ∈ allRefs st.epics ∨ x = fid := by
                  rw [hArst]
                  simp only [List.mem_append]
                  rcases hx with h | (h | h) | h
                  · exact Or.inl (Or.inl h)
                  · exact Or.inl (Or.inr (Or.inl h))
                  · simp only [List.map_cons, List.map_nil,
                      List.mem_singleton] at h
                    exact Or.inr h
                  · exact Or.inl (Or.inr (Or.inr h))
                rcases hxold with h | h
                · exact List.mem_append_left _ (hsub x h)
                · subst h
                  apply List.mem_append_right
                  simp [keys]
              · have hAR' := hAR
                rw [hArst] at hAR'
                have hfid' : fid ∉ allRefs l₁ ++
                    (ep.stories.map ItemId.val ++ allRefs l₂) := by
                  rw [← hArst]
                  exact hfid
                have hins := nodup_insert_middle (allRefs l₁)
                  (ep.stories.map ItemId.val) (allRefs l₂) fid hAR' hfid'
                rw [allRefs_append]
                simp only [allRefs, List.map_append, List.map_cons, List.map_nil]
                simpa [List.append_assoc] using hins
  | deleteEpicCall e =>
      cases hl : lookup st.epics e.val with
      | none =>
          simp only [runCall, delete_epic_missing st e hl]
          exact hwf
      | some ep =>
          obtain ⟨l₁, l₂, hdecomp, hnotl₁⟩ :=
            lookup_some_decomp st.epics e.val ep hl
          have hArst : allRefs st.epics =
              allRefs l₁ ++ (ep.stories.map ItemId.val ++ allRefs l₂) := by
            rw [hdecomp, allRefs_append]
            rfl
          have hAR' := hAR
          rw [hArst] at hAR'
          have hepmem : (e.val, ep) ∈ st.epics := by
            rw [hdecomp]
            exact List.mem_append_right _ (List.mem_cons_self _ _)
          have hmem : ∀ i ∈ ep.stories, i.val ∈ keys st.stories :=
            fun i hi => hRI (e.val, ep) hepmem i hi
          have hnd : (ep.stories.map ItemId.val).Nodup := by
            rw [List.nodup_append] at hAR'
            obtain ⟨_, h2, _⟩ := hAR'
            rw [List.nodup_append] at h2
            exact h2.1
          obtain ⟨hdropnod, hdropdis⟩ := nodup_drop_middle (allRefs l₁)
            (ep.stories.map ItemId.val) (allRefs l₂) hAR'
          obtain ⟨st', heq, hepics, hnodS, hchar⟩ :=
            delete_epic_ok st e ep hl hnd hmem hkS
          have hrm : (removeKey st.epics e.val).2 = l₁ ++ l₂ := by
            rw [hdecomp, removeKey_decomp l₁ l₂ e.val ep hnotl₁]
          simp only [runCall, heq]
          rw [WF_def]
          refine ⟨?_, hnodS, ?_, ?_⟩
          · rw [hepics, hrm, keys_append]
            have hkE' := hkE
            rw [hdecomp, keys_append, keys_cons] at hkE'
            have hsubl : (keys l₁ ++ keys l₂).Sublist
                (keys l₁ ++ (e.val, ep).1 :: keys l₂) :=
              (List.sublist_cons_self _ _).append_left _
            exact hkE'.sublist hsubl
          · rw [refIntact_iff]
            intro x hx
            rw [hepics, hrm, allRefs_append] at hx
            have hxold : x ∈ allRefs st.epics := by
              rw [hArst]
              rcases List.mem_append.1 hx with h | h
              · exact List.mem_append_left _ h
              · exact List.mem_append_right _ (List.mem_append_right _ h)
            exact (hchar x).2 ⟨hsub x hxold, hdropdis x hx⟩
          · rw [hepics, hrm, allRefs_append]
            exact hdropnod
  | deleteStoryCall s oe =>
      cases oe with
      | none =>
          have hc' : s.val ∉ allRefs st.epics := hc
          cases hsl : lookup st.stories s.val with
          | none =>
              simp only [runCall, delete_story_none_err st s hsl]
              exact hwf
          | some v =>
              have hmem : s.val ∈ keys st.stories := mem_keys_of_lookup _ _ _ hsl
              simp only [runCall, delete_story_none_eq st s hmem]
              apply WF_mk
              · exact hkE
              · exact hkS.sublist (keys_removeKey_sublist _ _)
              · intro x hx
                have hxne : x ≠ s.val := fun hcontra => hc' (hcontra ▸ hx)
                exact mem_keys_removeKey_of_ne _ _ _ (hsub x hx) hxne
              · exact hAR
      | some e =>
          cases hl : lookup st.epics e.val with
          | none =>
              simp only [runCall, delete_story_epic_missing st s e hl]
              exact hwf
          | some ep =>
              cases hp : position s ep.stories with
              | none =>
                  simp only [runCall, delete_story_panic st s e ep hl hp]
                  exact hwf
              | some idx =>
                  cases hsl : lookup st.stories s.val with
                  | none =>
                      simp only [runCall,
                        delete_story_some_story_missing st s e ep idx hl hp hsl]
                      exact hwf
                  | some v =>
                      simp only [runCall,
                        delete_story_some_eq st s e ep idx v hl hp hsl]
                      obtain ⟨l₁, l₂, hdecomp, hnotl₁⟩ :=
                        lookup_some_decomp st.epics e.val ep hl
                      obtain ⟨u₁, t, u₂, hu, htval, herase⟩ :=
                        position_some_decomp s ep.stories idx hp
                      have hold : allRefs st.epics = allRefs l₁ ++
                          (u₁.map ItemId.val ++
                            (t.val :: (u₂.map ItemId.val ++ allRefs l₂))) := by
                        rw [hdecomp, allRefs_append]
                        show _ ++ (ep.stories.map ItemId.val ++ allRefs l₂) = _
                        rw [hu]
                        simp [List.append_assoc]
                      have hAR' := hAR
                      rw [hold] at hAR'
                      obtain ⟨hnodnew, htnot⟩ := nodup_extract_middle
                        (allRefs l₁) (u₁.map ItemId.val) (u₂.map ItemId.val)
                        (allRefs l₂) t.val hAR'
                      rw [hdecomp, modifyKey_decomp _ _ _ _ _ hnotl₁]
                      have hnew : allRefs (l₁ ++
                          ((e.val,
                            { ep with stories := ep.stories.eraseIdx idx }) ::
                            l₂)) = allRefs l₁ ++
                          (u₁.map ItemId.val ++
                            (u₂.map ItemId.val ++ allRefs l₂)) := by
                        rw [allRefs_append]
                        show _ ++ ((ep.stories.eraseIdx idx).map ItemId.val ++
                          allRefs l₂) = _
                        rw [herase]
                        simp [List.append_assoc]
                      apply WF_mk
                      · have hkE' := hkE
                        rw [hdecomp, keys_append, keys_cons] at hkE'
                        rw [keys_append, keys_cons]
                        exact hkE'
                      · exact hkS.sublist (keys_removeKey_sublist _ _)
                      · intro x hx
                        rw [hnew] at hx
                        have hxold : x ∈ allRefs st.epics := by
                          rw [hold]
                          simp only [List.mem_append, List.mem_cons] at hx ⊢
                          tauto
                        have hxne : x ≠ s.val := by
                          rw [← htval]
                          intro hcontra
                          rw [hcontra] at hx
                          exact htnot hx
                        exact mem_keys_removeKey_of_ne _ _ _
                          (hsub x hxold) hxne
                      · rw [hnew]
                        exact hnodnew
  | updateEpicStatusCall e stat =>
      cases hl : lookup st.epics e.val with
      | none =>
          simp only [runCall, update_epic_status_missing st e stat hl]
          exact hwf
      | some ep =>
          simp only [runCall, update_epic_status_eq st e stat ep hl]
          rw [WF_def]
          have hkeys : keys (modifyKey
              (fun epic => { epic with detail := { epic.detail with status := stat } })
              st.epics e.val) = keys st.epics := keys_modifyKey _ _ _
          have hrefs : allRefs (modifyKey
              (fun epic => { epic with detail := { epic.detail with status := stat } })
              st.epics e.val) = allRefs st.epics :=
            allRefs_modifyKey_stories_eq
              (fun epic => { epic with detail := { epic.detail with status := stat } })
              (fun _ => rfl) st.epics e.val
          refine ⟨?_, hkS, ?_, ?_⟩
          · rw [hkeys]
            exact hkE
          · rw [refIntact_iff]
            intro x hx
            rw [hrefs] at hx
            exact hsub x hx
          · rw [hrefs]
            exact hAR
  | updateStoryStatusCall s stat =>
      cases hsl : lookup st.stories s.val with
      | none =>
          simp only [runCall, update_story_status_missing st s stat hsl]
          exact hwf
      | some v =>
          simp only [runCall, update_story_status_eq st s stat v hsl]
          rw [WF_def]
          have hkeys : keys (modifyKey
              (fun story => { story with detail := { story.detail with status := stat } })
              st.stories s.val) = keys st.stories := keys_modifyKey _ _ _
          refine ⟨hkE, ?_, ?_, hAR⟩
          · rw [hkeys]
            exact hkS
          · rw [refIntact_iff]
            intro x hx
            rw [hkeys]
            exact hsub x hx

/-- C3 witness: `dbOneEpicOneStory` is well-formed, and creating a further
epic (side condition trivial) preserves well-formedness, hence I1. -/
theorem store_preserves_integrity_witness :
    WF dbOneEpicOneStory ∧
    sideCond dbOneEpicOneStory (StoreCall.createEpicCall "n" "d") ∧
    WF (runCall dbOneEpicOneStory (StoreCall.createEpicCall "n" "d")) :=
  ⟨by decide, by decide,
   store_preserves_integrity dbOneEpicOneStory
     (StoreCall.createEpicCall "n" "d") (by decide) (by decide)⟩

end Jira
